import Mathlib

/-!
Verification of the progress-monitoring engine of the Slack/GitHub bridge
(`ProgressChecker.checkProgress`, `ProgressChecker.formatCommentForSlack`,
`GitHubService.isTaskFinished`).

Text is modelled as `List Char` (JavaScript strings over their code points);
chat identifiers (channel, thread, message timestamps) are opaque `String`s.
Side effects of one poll cycle (the GitHub fetch, Slack posts/edits, clearing
the in-progress reaction) are collected in an explicit effect list, and the
Slack sink's responses are supplied by an oracle `sinkResp : Nat → Option
String` giving the `ts` returned by the n-th `postToSlack` call of the cycle
(`none` models a failed call, whose result `postToSlack` turns into `null`).
-/

namespace SlackBot

/-- Whitespace as trimmed by `String.prototype.trim` (ASCII fragment). -/
def isWS (c : Char) : Bool :=
  c = ' ' || c = '\n' || c = '\t' || c = '\r'

/-- Remove every whitespace character; used to compare texts up to
whitespace-at-boundary differences. -/
def stripWS (l : List Char) : List Char :=
  l.filter (fun c => !isWS c)

/-- JavaScript `s.trim()`: drop whitespace from both ends. -/
def trim (l : List Char) : List Char :=
  ((l.dropWhile isWS).reverse.dropWhile isWS).reverse

/-- The `"\n\n"` separator inserted between accumulated paragraphs. -/
def nl2 : List Char := ['\n', '\n']

/-- JavaScript `haystack.includes(needle)`: substring containment. -/
def containsSub : List Char → List Char → Bool
  | [], sub => sub.isEmpty
  | c :: t, sub => sub.isPrefixOf (c :: t) || containsSub t sub

/-- JavaScript `s.toLowerCase()` (ASCII-adequate, via `Char.toLower`). -/
def toLowerL (l : List Char) : List Char :=
  l.map Char.toLower

/-- The "Create PR" marker literal checked first by `isTaskFinished`
(`src/unnamed/part_001` line 206, mojibake included verbatim). -/
def createPRMarker : List Char := "[Create PR âž”]".toList

/-- The fixed completion-phrase list of `GitHubService.isTaskFinished`
(`src/unnamed/part_001` lines 211–223). -/
def finishedPatterns : List (List Char) :=
  [ "claude finished".toList
  , "implementation complete".toList
  , "task completed".toList
  , "done implementing".toList
  , "finished implementing".toList
  , "completed the implementation".toList
  , "all changes have been made".toList
  , "implementation is complete".toList
  , "resolved".toList
  , "fixed".toList
  , "closing this issue".toList ]

/-- `GitHubService.isTaskFinished` (`src/unnamed/part_001` lines 204–227):
true if the body contains the Create-PR marker, else if the lowercased body
contains any phrase of the fixed list (plain substring containment). -/
def isTaskFinished (commentBody : List Char) : Bool :=
  if containsSub commentBody createPRMarker then true
  else finishedPatterns.any (fun pat => containsSub (toLowerL commentBody) pat)

/-- JavaScript `s.lastIndexOf(ch, pos)` for a one-character search string:
the largest start index `≤ pos` holding `ch`, else `-1`.  Scans left to
right, remembering the last match at an index `≤ pos`. -/
def lastIdxAux (ch : Char) (pos : Nat) : List Char → Nat → Int → Int
  | [], _, acc => acc
  | c :: rest, i, acc =>
    if i ≤ pos then
      lastIdxAux ch pos rest (i + 1) (if c = ch then Int.ofNat i else acc)
    else acc

/-- JavaScript `s.lastIndexOf(ch, pos)`. -/
def lastIndexOf (ch : Char) (pos : Nat) (l : List Char) : Int :=
  lastIdxAux ch pos l 0 (-1)

/-- The break point chosen when a paragraph exceeds `maxLength - 100 = 3800`
(`src/unnamed/part_003` lines 643–650): the latest sentence period, newline
or space at position `≤ 3800`; `3800` itself when none is found at a positive
position. -/
def breakAt (p : List Char) : Nat :=
  if max (lastIndexOf '.' 3800 p)
       (max (lastIndexOf '\n' 3800 p) (lastIndexOf ' ' 3800 p)) ≤ 0
  then 3800
  else (max (lastIndexOf '.' 3800 p)
          (max (lastIndexOf '\n' 3800 p) (lastIndexOf ' ' 3800 p))).toNat

/-- Accumulate `chunk` into the running message, closing the current message
when appending would exceed `maxLength = 3900` (the duplicated push pattern
at `src/unnamed/part_003` lines 655–665 and 670–681). -/
def pushChunk (msgs : List (List Char)) (cur chunk : List Char) :
    List (List Char) × List Char :=
  if cur ≠ [] ∧ 3900 < (cur ++ nl2 ++ chunk).length then
    (msgs ++ [cur], chunk)
  else
    (msgs, if cur = [] then chunk else cur ++ nl2 ++ chunk)

/-- One paragraph's processing (`src/unnamed/part_003` lines 637–681): the
`while` loop force-splitting an over-long paragraph at `breakAt`, then the
final accumulation of the remaining (now short) paragraph when non-empty.
Fuel makes the recursion structural; `fuel > p.length` suffices because each
iteration removes at least one character. -/
def procParaF : Nat → List (List Char) → List Char → List Char →
    List (List Char) × List Char
  | 0, msgs, cur, _ => (msgs, cur)
  | fuel + 1, msgs, cur, p =>
    if 3800 < p.length then
      procParaF fuel
        (pushChunk msgs cur (trim (p.take (breakAt p)))).1
        (pushChunk msgs cur (trim (p.take (breakAt p)))).2
        (trim (p.drop (breakAt p)))
    else if p = [] then (msgs, cur) else pushChunk msgs cur p

/-- The `for` loop body over paragraphs (`src/unnamed/part_003` line 637):
process one paragraph into the accumulated `(messages, currentMessage)`
pair, giving `procParaF` one unit of fuel more than the paragraph is long —
enough, since every `while` iteration consumes at least one character. -/
def paraStep (acc : List (List Char) × List Char) (p : List Char) :
    List (List Char) × List Char :=
  procParaF (p.length + 1) acc.1 acc.2 p

/-- Push the remaining `currentMessage` when non-empty
(`src/unnamed/part_003` lines 684–687). -/
def closeCur (mc : List (List Char) × List Char) : List (List Char) :=
  if mc.2.isEmpty then mc.1 else mc.1 ++ [mc.2]

/-- JavaScript `body.split(/\n\n+/)`: split on maximal runs of at least two
newlines.  `skipping = true` while consuming the tail of a separator run. -/
def splitAux : Bool → List Char → List Char → List (List Char)
  | _, cur, [] => [cur.reverse]
  | false, cur, c :: rest =>
    if c = '\n' ∧ rest.head? = some '\n' then
      cur.reverse :: splitAux true [] rest
    else splitAux false (c :: cur) rest
  | true, cur, c :: rest =>
    if c = '\n' then splitAux true cur rest
    else splitAux false (c :: cur) rest

/-- JavaScript `body.split(/\n\n+/)`. -/
def splitParas (l : List Char) : List (List Char) :=
  splitAux false [] l

/-- Append the reference link to the final chunk if it fits, else as its own
trailing chunk (`src/unnamed/part_003` lines 689–698); on no messages at all,
return `[link]` (line 700). -/
def appendLink (link : List Char) : List (List Char) → List (List Char)
  | [] => [link]
  | [m] =>
    if m.length + link.length + 4 < 3900 then [m ++ nl2 ++ link]
    else [m, link]
  | m :: m2 :: rest => m :: appendLink link (m2 :: rest)

/-- The `<url|View on GitHub>` reference link built from a comment's
`html_url` (`src/unnamed/part_003` line 623). -/
def mkLink (url : List Char) : List Char :=
  '<' :: url ++ "|View on GitHub>".toList

/-- `ProgressChecker.formatCommentForSlack` (`src/unnamed/part_003` lines
622–701), taking the markdown-converted body and the reference link: a
single chunk when everything fits, else paragraphs accumulated into chunks
of at most 3900 characters, the link appended last. -/
def formatCommentForSlack (body link : List Char) : List (List Char) :=
  if body.length + link.length + 4 < 3900 then
    [body ++ nl2 ++ link]
  else
    appendLink link
      (closeCur
        (((splitParas body).filter (fun p => !(trim p).isEmpty)).foldl
          paraStep ([], [])))

/-- Every chunk respects the 3900-character transport bound and is
non-empty. -/
def ChunksOK (msgs : List (List Char)) : Prop :=
  ∀ m ∈ msgs, m.length ≤ 3900 ∧ m ≠ []

/-- The 10,000-character single-paragraph body of the segmenter scenario. -/
def c7body : List Char := List.replicate 10000 'a'

/-- A concrete reference link for the segmenter scenario. -/
def c7link : List Char :=
  mkLink "https://github.com/acme/acme/issues/42#issuecomment-7".toList

/-- A GitHub issue comment as consumed by the checker
(`GitHubService.getIssueComments` element shape): timestamps are modelled as
the millisecond values their `Date`s compare by. -/
structure Comment where
  id : Nat
  body : List Char
  created_at : Nat
  updated_at : Nat
  html_url : List Char
deriving DecidableEq, Repr

/-- `GitHubService.getAllComments` (`src/unnamed/part_001` lines 199–202):
the identity on the fetched list (it only logs). -/
def getAllComments (comments : List Comment) : List Comment :=
  comments

/-- The `ProgressCheckRequest` state threaded between poll cycles
(`src/unnamed/part_003` lines 415–425).  Optional numeric fields keep their
`undefined` case as `none`; `attemptCount` is destructured with default 0 and
always rewritten, so plain `Nat`; `isFinalCheck` collapses `undefined` to
`false` as JavaScript truthiness does. -/
structure ProgressCheckRequest where
  issueNumber : Nat
  channel : String
  threadId : String
  attemptCount : Nat
  lastCommentId : Option Nat
  slackMessageTs : Option String
  originalMessageTs : Option String
  startTime : Option Nat
  isFinalCheck : Bool
deriving DecidableEq, Repr

/-- One observable side effect of a poll cycle. -/
inductive Effect where
  | fetchComments (issueNumber : Nat)
  | postNew (channel threadId : String) (text : List Char)
  | editMsg (channel ts : String) (text : List Char)
  | clearIndicator (channel ts : String)
deriving DecidableEq, Repr

/-- Whether an effect is a `chat.update` call. -/
def Effect.isEdit : Effect → Bool
  | .editMsg _ _ _ => true
  | _ => false

/-- Whether an effect is the GitHub comment fetch. -/
def Effect.isFetch : Effect → Bool
  | .fetchComments _ => true
  | _ => false

/-- `ProgressChecker.postToSlack` (`src/unnamed/part_003` lines 703–731):
an update when a target timestamp is supplied, a new thread post otherwise. -/
def postEff (channel threadId : String) (text : List Char)
    (updateTs : Option String) : Effect :=
  match updateTs with
  | some ts => .editMsg channel ts text
  | none => .postNew channel threadId text

/-- The timeout notice text (`src/unnamed/part_003` line 477). -/
def timeoutNoticeText : List Char :=
  "⏱️ Progress monitoring stopped after 30 minutes. The task may still be in progress.".toList

/-- The fetch-failure notice text (`src/unnamed/part_003` line 495). -/
def fetchFailText (e : List Char) : List Char :=
  "❌ Failed to check for new comments: ".toList ++ e

/-- The deadline guard (`src/unnamed/part_003` line 472):
`startTime && Date.now() - startTime > 30 * 60 * 1000`, with JavaScript
truthiness making `startTime = 0` skip the check. -/
def timedOut (now : Nat) (req : ProgressCheckRequest) : Bool :=
  match req.startTime with
  | none => false
  | some t => t ≠ 0 && t + 30 * 60 * 1000 < now

/-- `!lastCommentId || latestComment.id > lastCommentId`
(`src/unnamed/part_003` line 516); `some 0` is falsy in JavaScript. -/
def isNewC (lastCommentId : Option Nat) (latestId : Nat) : Bool :=
  match lastCommentId with
  | none => true
  | some n => n = 0 || n < latestId

/-- `lastCommentId === latestComment.id && updated_at > created_at`
(`src/unnamed/part_003` lines 517–519). -/
def hasUpd (lastCommentId : Option Nat) (latest : Comment) : Bool :=
  lastCommentId = some latest.id && latest.created_at < latest.updated_at

/-- Markdown-to-Slack conversion (`markdownToSlack`, an external collaborator
outside the monitored core, §1/§2 of the spec): modelled as the identity on
the already-converted text — the segmenter's input is its output. -/
def mdToSlack (body : List Char) : List Char :=
  body

/-- The `removeEyesEmoji` call guarded by `request.originalMessageTs`
(`src/unnamed/part_003` lines 481–483 and 575–577). -/
def clearEffs (req : ProgressCheckRequest) : List Effect :=
  match req.originalMessageTs with
  | some ts => [.clearIndicator req.channel ts]
  | none => []

/-- The Slack emission block for a new or edited comment
(`src/unnamed/part_003` lines 528–570), returning the effects and the
`newSlackTs` value: an update edits the stored `slackMessageTs` with the
first chunk (falling back to all-new posts if that chunk exceeds 3900) and
never changes `newSlackTs`; a new comment posts every chunk and takes the
sink's `ts` from the first post, keeping the old value when the sink
returned `null`. -/
def emitComment (req : ProgressCheckRequest) (msgs : List (List Char))
    (upd : Bool) (sinkResp : Nat → Option String) :
    List Effect × Option String :=
  if upd ∧ msgs ≠ [] then
    match msgs with
    | [] => ([], req.slackMessageTs)
    | m0 :: restMsgs =>
      if 3900 < m0.length then
        (msgs.map (fun m => postEff req.channel req.threadId m none),
         req.slackMessageTs)
      else
        (postEff req.channel req.threadId m0 req.slackMessageTs ::
           restMsgs.map (fun m => postEff req.channel req.threadId m none),
         req.slackMessageTs)
  else
    (msgs.map (fun m => postEff req.channel req.threadId m none),
     if msgs.isEmpty then req.slackMessageTs
     else match sinkResp 0 with
       | some t => some t
       | none => req.slackMessageTs)

/-- `ProgressChecker.checkProgress` (`src/unnamed/part_003` lines 450–620):
one poll cycle.  `fetch` is the result `github.getIssueComments` produced
for this cycle; the returned pair is the list of observable effects in
program order and `none` for `shouldContinue: false` or `some next` for
`shouldContinue: true` with `nextRequest := next`. -/
def checkProgress (now : Nat) (req : ProgressCheckRequest)
    (fetch : Except (List Char) (List Comment))
    (sinkResp : Nat → Option String) :
    List Effect × Option ProgressCheckRequest :=
  if timedOut now req then
    (postEff req.channel req.threadId timeoutNoticeText req.slackMessageTs ::
       clearEffs req, none)
  else
    match fetch with
    | .error e =>
      ([.fetchComments req.issueNumber,
        postEff req.channel req.threadId (fetchFailText e) req.slackMessageTs],
       none)
    | .ok comments =>
      let allComments := getAllComments comments
      match allComments.getLast? with
      | none =>
        ([.fetchComments req.issueNumber],
         some { req with attemptCount := req.attemptCount + 1 })
      | some latest =>
        let isNewComment := isNewC req.lastCommentId latest.id
        let hasBeenUpdated := hasUpd req.lastCommentId latest
        if isNewComment || hasBeenUpdated then
          let slackMessages :=
            formatCommentForSlack (mdToSlack latest.body) (mkLink latest.html_url)
          let em := emitComment req slackMessages hasBeenUpdated sinkResp
          if isTaskFinished latest.body then
            (.fetchComments req.issueNumber :: em.1 ++ clearEffs req,
             some { req with
                      attemptCount := req.attemptCount + 1
                      lastCommentId := some latest.id
                      slackMessageTs := em.2
                      isFinalCheck := true })
          else if req.isFinalCheck then
            (.fetchComments req.issueNumber :: em.1, none)
          else
            (.fetchComments req.issueNumber :: em.1,
             some { req with
                      attemptCount := req.attemptCount + 1
                      lastCommentId := some latest.id
                      slackMessageTs := em.2 })
        else
          ([.fetchComments req.issueNumber],
           some { req with attemptCount := req.attemptCount + 1 })

/-- A concrete polling state for witnesses. -/
def c3req : ProgressCheckRequest :=
  { issueNumber := 2, channel := "CH", threadId := "TH", attemptCount := 1,
    lastCommentId := some 3, slackMessageTs := some "77.7",
    originalMessageTs := some "70.1", startTime := some 10,
    isFinalCheck := false }

/-- A concrete new latest comment for witnesses. -/
def c3cm : Comment :=
  { id := 4, body := "Still working".toList, created_at := 9, updated_at := 9,
    html_url := "https://g".toList }

/-- C10: the completion detector uses plain substring containment on the
lowercased text with no word-boundary check, so a text that merely contains
the word "prefixed" — and does not express completion — satisfies
`isTaskFinished`, because "fixed" occurs inside "prefixed". -/
theorem c10_substring_false_positive :
    isTaskFinished "The new labels are prefixed with team names".toList = true ∧
    containsSub (toLowerL "The new labels are prefixed with team names".toList)
      "fixed".toList = true := by
  decide

/-- C2: with a (truthy) `startTime` more than 30 minutes before `now`, the
cycle emits the timeout notice (via `postToSlack`, which edits the last
progress message when one is stored), clears the in-progress indicator on the
original message, and terminates — the effect list contains no fetch, so the
deadline check precedes any comment fetching or processing, independent of
the comment state (`fetch` and `sinkResp` are arbitrary). -/
theorem c2_deadline_terminates (now : Nat) (req : ProgressCheckRequest)
    (fetch : Except (List Char) (List Comment)) (sinkResp : Nat → Option String)
    (t : Nat) (ots : String)
    (ht : req.startTime = some t) (ht0 : t ≠ 0) (hlt : t + 30 * 60 * 1000 < now)
    (hots : req.originalMessageTs = some ots) :
    checkProgress now req fetch sinkResp =
      ([postEff req.channel req.threadId timeoutNoticeText req.slackMessageTs,
        Effect.clearIndicator req.channel ots], none) := by
  simp [checkProgress, timedOut, ht, ht0, hlt, clearEffs, hots]

/-- C2 witness: the deadline theorem at `startedAt` = T = 60000 ms and
`now` = T + 31 minutes. -/
theorem c2_deadline_terminates_witness :
    checkProgress (60000 + 31 * 60 * 1000)
      { issueNumber := 7, channel := "C9", threadId := "T9", attemptCount := 2,
        lastCommentId := some 4, slackMessageTs := some "55.5",
        originalMessageTs := some "50.1", startTime := some 60000,
        isFinalCheck := false }
      (Except.ok []) (fun _ => none) =
      ([postEff "C9" "T9" timeoutNoticeText (some "55.5"),
        Effect.clearIndicator "C9" "50.1"], none) :=
  c2_deadline_terminates (60000 + 31 * 60 * 1000) _ _ _ 60000 "50.1"
    rfl (by decide) (by norm_num) rfl

/-- C6: a fetch error (with the deadline not reached) makes the cycle emit
exactly one fetch, post the one-line failure notice, and terminate — no
retry of the fetch happens within the session since the cycle ends with
`shouldContinue: false`. -/
theorem c6_fetch_error_terminal (now : Nat) (req : ProgressCheckRequest)
    (sinkResp : Nat → Option String) (e : List Char)
    (hto : timedOut now req = false) :
    checkProgress now req (Except.error e) sinkResp =
      ([Effect.fetchComments req.issueNumber,
        postEff req.channel req.threadId (fetchFailText e) req.slackMessageTs],
       none) := by
  simp [checkProgress, hto]

/-- C6 witness: the fetch-error theorem at a concrete request. -/
theorem c6_fetch_error_terminal_witness :
    checkProgress 5000
      { issueNumber := 3, channel := "C1", threadId := "T1", attemptCount := 0,
        lastCommentId := none, slackMessageTs := none,
        originalMessageTs := some "10.1", startTime := some 4000,
        isFinalCheck := false }
      (Except.error "rate limited".toList) (fun _ => none) =
      ([Effect.fetchComments 3,
        postEff "C1" "T1" (fetchFailText "rate limited".toList) none], none) :=
  c6_fetch_error_terminal 5000 _ _ _ (by decide)

/-- C9: in `POLLING` (`isFinalCheck = false`), when the source returns an
empty comment list (and the deadline is not reached) the cycle performs the
fetch and nothing else — no notification — and continues with exactly
`attemptCount + 1`, every other field of the state unchanged (the record
update touches only `attemptCount`). -/
theorem c9_empty_comments_frame (now : Nat) (req : ProgressCheckRequest)
    (sinkResp : Nat → Option String)
    (hto : timedOut now req = false) (_hfp : req.isFinalCheck = false) :
    checkProgress now req (Except.ok []) sinkResp =
      ([Effect.fetchComments req.issueNumber],
       some { req with attemptCount := req.attemptCount + 1 }) := by
  simp [checkProgress, hto, getAllComments]

/-- C9 witness: the empty-comments theorem at a concrete polling state. -/
theorem c9_empty_comments_frame_witness :
    checkProgress 100
      { issueNumber := 12, channel := "C2", threadId := "T2", attemptCount := 5,
        lastCommentId := some 9, slackMessageTs := some "1.2",
        originalMessageTs := some "1.1", startTime := some 50,
        isFinalCheck := false }
      (Except.ok []) (fun _ => some "2.2") =
      ([Effect.fetchComments 12],
       some { issueNumber := 12, channel := "C2", threadId := "T2",
              attemptCount := 6, lastCommentId := some 9,
              slackMessageTs := some "1.2", originalMessageTs := some "1.1",
              startTime := some 50, isFinalCheck := false }) :=
  c9_empty_comments_frame 100 _ _ (by decide) (by decide)

/-- C5: with positive stored identifiers (GitHub comment ids are ≥ 1, which
keeps JavaScript's falsy-zero test out of play) the classification is:
new iff `lastSeenCommentId` is unset or strictly exceeded by the latest id;
edited-in-place iff the ids are equal and `updatedAt > createdAt`; and the
two are mutually exclusive, so an identifier increase always means new
(otherwise the comment is unchanged). -/
theorem c5_classification (last : Option Nat) (c : Comment)
    (hpos : ∀ n, last = some n → 0 < n) :
    (isNewC last c.id = true ↔ (last = none ∨ ∃ n, last = some n ∧ n < c.id)) ∧
    (hasUpd last c = true ↔ (last = some c.id ∧ c.created_at < c.updated_at)) ∧
    ¬(isNewC last c.id = true ∧ hasUpd last c = true) := by
  refine ⟨?_, ?_, ?_⟩
  · cases last with
    | none => simp [isNewC]
    | some n =>
      have hn := hpos n rfl
      simp [isNewC, Nat.pos_iff_ne_zero.mp hn]
  · simp [hasUpd]
  · rintro ⟨hnew, hupd⟩
    cases last with
    | none => simp [hasUpd] at hupd
    | some n =>
      have hn := hpos n rfl
      simp [isNewC, Nat.pos_iff_ne_zero.mp hn] at hnew
      simp [hasUpd] at hupd
      omega

/-- C5 witness: at `lastSeenCommentId = 5` and a comment with `id = 6` and
`createdAt = updatedAt`, the classification instance — in particular the
first conjunct yields "new" and the second rules out "edited-in-place". -/
theorem c5_classification_witness :
    (isNewC (some 5) (Comment.mk 6 [] 40 40 []).id = true ↔
       ((some 5 : Option Nat) = none ∨
        ∃ n, (some 5 : Option Nat) = some n ∧ n < (Comment.mk 6 [] 40 40 []).id)) ∧
    (hasUpd (some 5) (Comment.mk 6 [] 40 40 []) = true ↔
       ((some 5 : Option Nat) = some (Comment.mk 6 [] 40 40 []).id ∧
        (Comment.mk 6 [] 40 40 []).created_at < (Comment.mk 6 [] 40 40 []).updated_at)) ∧
    ¬(isNewC (some 5) (Comment.mk 6 [] 40 40 []).id = true ∧
      hasUpd (some 5) (Comment.mk 6 [] 40 40 []) = true) :=
  c5_classification (some 5) (Comment.mk 6 [] 40 40 []) (by simp)

/-- C8: whenever a cycle returns `continue` with a next state,
`lastSeenCommentId` does not decrease (under the source invariant that the
latest fetched comment's id is at least the previously seen one; the code in
fact never decreases the field even without it, since it only rewrites it to
the latest id when that id is classified new or equal). -/
theorem c8_lastSeen_monotone (now : Nat) (req : ProgressCheckRequest)
    (fetch : Except (List Char) (List Comment)) (sinkResp : Nat → Option String)
    (effs : List Effect) (next : ProgressCheckRequest)
    (hsrc : ∀ l c, fetch = Except.ok l → l.getLast? = some c →
      ∀ n, req.lastCommentId = some n → n ≤ c.id)
    (hstep : checkProgress now req fetch sinkResp = (effs, some next)) :
    ∀ n, req.lastCommentId = some n → ∃ m, next.lastCommentId = some m ∧ n ≤ m := by
  intro n hn
  by_cases hto : timedOut now req
  · simp [checkProgress, hto] at hstep
  · cases fetch with
    | error e => simp [checkProgress, hto] at hstep
    | ok comments =>
      rcases hlast : comments.getLast? with _ | latest
      · simp [checkProgress, hto, getAllComments, hlast] at hstep
        exact ⟨n, by simp [← hstep.2, hn], le_refl n⟩
      · by_cases hcl : isNewC req.lastCommentId latest.id || hasUpd req.lastCommentId latest
        · by_cases hfin : isTaskFinished latest.body
          · simp [checkProgress, hto, getAllComments, hlast, hcl, hfin] at hstep
            refine ⟨latest.id, by simp [← hstep.2], ?_⟩
            rcases Bool.or_eq_true _ _ |>.mp hcl with hnew | hupd
            · simp [isNewC, hn] at hnew
              omega
            · simp [hasUpd, hn] at hupd
              omega
          · by_cases hfp : req.isFinalCheck
            · simp [checkProgress, hto, getAllComments, hlast, hcl, hfin, hfp] at hstep
            · simp [checkProgress, hto, getAllComments, hlast, hcl, hfin, hfp] at hstep
              refine ⟨latest.id, by simp [← hstep.2], ?_⟩
              rcases Bool.or_eq_true _ _ |>.mp hcl with hnew | hupd
              · simp [isNewC, hn] at hnew
                omega
              · simp [hasUpd, hn] at hupd
                omega
        · simp [checkProgress, hto, getAllComments, hlast, hcl] at hstep
          exact ⟨n, by simp [← hstep.2, hn], le_refl n⟩

/-- C8 witness: monotonicity applied at a concrete cycle that advances
`lastSeenCommentId` from 4 to 8. -/
theorem c8_lastSeen_monotone_witness :
    ∃ m, (({ issueNumber := 1, channel := "C", threadId := "T",
             attemptCount := 1, lastCommentId := some 8,
             slackMessageTs := some "9.9", originalMessageTs := none,
             startTime := none, isFinalCheck := false } :
             ProgressCheckRequest).lastCommentId = some m) ∧ 4 ≤ m := by
  refine c8_lastSeen_monotone 0
    { issueNumber := 1, channel := "C", threadId := "T", attemptCount := 0,
      lastCommentId := some 4, slackMessageTs := none,
      originalMessageTs := none, startTime := none, isFinalCheck := false }
    (Except.ok [Comment.mk 8 "hi".toList 1 1 "u".toList])
    (fun _ => some "9.9")
    [Effect.fetchComments 1,
     Effect.postNew "C" "T" ("hi".toList ++ nl2 ++ mkLink "u".toList)]
    _ ?_ (by decide) 4 rfl
  intro l c hl hc n hn
  simp at hl
  subst hl
  simp at hc
  cases hn
  simp [← hc]

/-- C1 (code bug evaluation): in state `FINAL_PASS` (`isFinalCheck = true`)
with a new latest comment whose body still passes the completion check, the
cycle returns `continue` with `isFinalCheck` still `true` — scheduling yet
another "final" pass instead of terminating unconditionally as the design
("Do one final check", "If this was the final check, stop now") prescribes;
the same continue-instead-of-terminate happens when the comment is
unchanged during the final pass. -/
theorem c1_final_pass_does_not_terminate :
    (checkProgress 2000
      { issueNumber := 1, channel := "C", threadId := "T", attemptCount := 3,
        lastCommentId := some 1, slackMessageTs := some "111.1",
        originalMessageTs := some "100.1", startTime := some 1000,
        isFinalCheck := true }
      (Except.ok [Comment.mk 2 "Task completed".toList 5 5 "https://x".toList])
      (fun _ => some "222.2")).2.map (fun r => r.isFinalCheck) = some true := by
  decide

/-- Removing whitespace distributes over concatenation. -/
theorem stripWS_append (a b : List Char) :
    stripWS (a ++ b) = stripWS a ++ stripWS b := by
  simp [stripWS]

/-- Removing whitespace ignores a leading whitespace run already dropped. -/
theorem stripWS_dropWhile (l : List Char) :
    stripWS (l.dropWhile isWS) = stripWS l := by
  induction l with
  | nil => rfl
  | cons c t ih =>
    by_cases h : isWS c
    · simpa [List.dropWhile_cons, h, stripWS, List.filter_cons] using ih
    · simp [List.dropWhile_cons, h]

/-- Removing whitespace commutes with reversal. -/
theorem stripWS_reverse (l : List Char) :
    stripWS l.reverse = (stripWS l).reverse := by
  simp [stripWS, List.filter_reverse]

/-- Trimming only removes whitespace. -/
theorem stripWS_trim (l : List Char) : stripWS (trim l) = stripWS l := by
  simp only [trim, stripWS_reverse, stripWS_dropWhile, List.reverse_reverse]

/-- Trimming never lengthens a text. -/
theorem trim_length_le (l : List Char) : (trim l).length ≤ l.length := by
  simp only [trim, List.length_reverse]
  calc ((l.dropWhile isWS).reverse.dropWhile isWS).length
      ≤ (l.dropWhile isWS).reverse.length :=
        (List.dropWhile_sublist isWS).length_le
    _ = (l.dropWhile isWS).length := List.length_reverse _
    _ ≤ l.length := (List.dropWhile_sublist isWS).length_le

/-- Removing whitespace never lengthens a text. -/
theorem stripWS_length_le (l : List Char) : (stripWS l).length ≤ l.length :=
  List.length_filter_le _ l

/-- A text whose trim is empty is pure whitespace. -/
theorem stripWS_nil_of_trim_nil (l : List Char) (h : trim l = []) :
    stripWS l = [] := by
  rw [← stripWS_trim, h]
  rfl

/-- The paragraph separator is whitespace only. -/
theorem stripWS_nl2 : stripWS nl2 = [] := rfl

/-- Newlines are whitespace. -/
theorem isWS_nl : isWS '\n' = true := by decide

/-- The scan of `lastIdxAux` never reports an index beyond `pos`. -/
theorem lastIdxAux_le (ch : Char) (pos : Nat) (l : List Char) :
    ∀ (i : Nat) (acc : Int), acc ≤ (pos : Int) →
      lastIdxAux ch pos l i acc ≤ (pos : Int) := by
  induction l with
  | nil => intro i acc h; simpa [lastIdxAux] using h
  | cons c rest ih =>
    intro i acc h
    simp only [lastIdxAux]
    by_cases hi : i ≤ pos
    · simp only [hi, if_true]
      apply ih
      by_cases hc : c = ch
      · simp only [hc, if_true, Int.ofNat_eq_coe]
        exact_mod_cast hi
      · simpa [hc] using h
    · simpa [hi] using h

/-- `lastIndexOf` never reports an index beyond `pos`. -/
theorem lastIndexOf_le (ch : Char) (pos : Nat) (l : List Char) :
    lastIndexOf ch pos l ≤ (pos : Int) := by
  apply lastIdxAux_le
  omega

/-- The chosen break point is positive, so force-splitting always makes
progress. -/
theorem breakAt_pos (p : List Char) : 1 ≤ breakAt p := by
  unfold breakAt
  split
  · omega
  · rename_i h
    omega

/-- The chosen break point never exceeds 3800. -/
theorem breakAt_le (p : List Char) : breakAt p ≤ 3800 := by
  have h1 := lastIndexOf_le '.' 3800 p
  have h2 := lastIndexOf_le '\n' 3800 p
  have h3 := lastIndexOf_le ' ' 3800 p
  unfold breakAt
  split
  · omega
  · rename_i h
    omega

/-- Accumulating a chunk of at most 3800 characters keeps every closed
message within 3900 characters and non-empty, and the running message within
3900 characters. -/
theorem pushChunk_ok (msgs : List (List Char)) (cur chunk : List Char)
    (hm : ChunksOK msgs) (hc : cur.length ≤ 3900) (hk : chunk.length ≤ 3800) :
    ChunksOK (pushChunk msgs cur chunk).1 ∧
      (pushChunk msgs cur chunk).2.length ≤ 3900 := by
  unfold pushChunk
  split
  · rename_i h
    refine ⟨?_, by dsimp only; omega⟩
    intro m hmem
    rcases List.mem_append.mp hmem with h1 | h1
    · exact hm m h1
    · simp only [List.mem_singleton] at h1
      subst h1
      exact ⟨hc, h.1⟩
  · rename_i h
    rcases Classical.not_and_iff_or_not_not.mp h with h1 | h1
    · have hcur : cur = [] := Classical.not_not.mp h1
      subst hcur
      exact ⟨hm, by simpa using by omega⟩
    · by_cases hcur : cur = []
      · subst hcur
        exact ⟨hm, by simpa using by omega⟩
      · refine ⟨hm, ?_⟩
        simp only [hcur, if_false]
        simp only [List.length_append] at h1 ⊢
        omega

/-- Accumulating a chunk preserves, up to whitespace, the concatenation of
everything emitted so far plus the running message. -/
theorem pushChunk_strip (msgs : List (List Char)) (cur chunk : List Char) :
    stripWS ((pushChunk msgs cur chunk).1.flatten ++ (pushChunk msgs cur chunk).2) =
      stripWS (msgs.flatten ++ (cur ++ chunk)) := by
  unfold pushChunk
  split
  · simp [stripWS_append, List.flatten_append]
  · by_cases hcur : cur = []
    · subst hcur
      simp [stripWS_append]
    · simp [hcur, stripWS_append, stripWS_nl2]

/-- The paragraph loop keeps every message within bounds whatever the fuel:
each chunk it accumulates is at most 3800 characters long. -/
theorem procParaF_ok (fuel : Nat) :
    ∀ (msgs : List (List Char)) (cur p : List Char),
      ChunksOK msgs → cur.length ≤ 3900 →
      ChunksOK (procParaF fuel msgs cur p).1 ∧
        (procParaF fuel msgs cur p).2.length ≤ 3900 := by
  induction fuel with
  | zero => intro msgs cur p hm hc; exact ⟨hm, hc⟩
  | succ n ih =>
    intro msgs cur p hm hc
    simp only [procParaF]
    split
    · rename_i hlen
      have hchunk : (trim (p.take (breakAt p))).length ≤ 3800 := by
        have h1 := trim_length_le (p.take (breakAt p))
        have h2 : (p.take (breakAt p)).length ≤ breakAt p := by
          simp [List.length_take]
        have h3 := breakAt_le p
        omega
      have hp := pushChunk_ok msgs cur _ hm hc hchunk
      exact ih _ _ _ hp.1 hp.2
    · split
      · exact ⟨hm, hc⟩
      · rename_i hlen hne
        have hple : p.length ≤ 3800 := by omega
        exact pushChunk_ok msgs cur p hm hc hple

/-- With enough fuel, the paragraph loop preserves the processed text up to
whitespace: force-splitting partitions the paragraph exactly and trims only
whitespace. -/
theorem procParaF_strip (fuel : Nat) :
    ∀ (msgs : List (List Char)) (cur p : List Char), p.length < fuel →
      stripWS ((procParaF fuel msgs cur p).1.flatten ++ (procParaF fuel msgs cur p).2) =
        stripWS (msgs.flatten ++ cur ++ p) := by
  induction fuel with
  | zero => intro msgs cur p h; omega
  | succ n ih =>
    intro msgs cur p hfuel
    simp only [procParaF]
    split
    · rename_i hlen
      have hrest : (trim (p.drop (breakAt p))).length < n := by
        have h1 := trim_length_le (p.drop (breakAt p))
        have h2 : (p.drop (breakAt p)).length = p.length - breakAt p := by
          simp [List.length_drop]
        have h3 := breakAt_pos p
        omega
      rw [ih _ _ _ hrest, stripWS_append, pushChunk_strip]
      have hsplit : stripWS (p.take (breakAt p)) ++
          stripWS (p.drop (breakAt p)) = stripWS p := by
        rw [← stripWS_append, List.take_append_drop]
      simp only [stripWS_append, stripWS_trim, List.append_assoc]
      rw [hsplit]
    · split
      · rename_i hlen hp
        subst hp
        simp
      · rw [pushChunk_strip]
        simp [stripWS_append, List.append_assoc]

/-- The paragraph fold keeps every message within bounds. -/
theorem paraFold_ok (paras : List (List Char)) :
    ∀ (msgs : List (List Char)) (cur : List Char),
      ChunksOK msgs → cur.length ≤ 3900 →
      ChunksOK (paras.foldl paraStep (msgs, cur)).1 ∧
        (paras.foldl paraStep (msgs, cur)).2.length ≤ 3900 := by
  induction paras with
  | nil => intro msgs cur hm hc; exact ⟨hm, hc⟩
  | cons p t ih =>
    intro msgs cur hm hc
    rw [List.foldl_cons]
    have hp := procParaF_ok (p.length + 1) msgs cur p hm hc
    have := ih (paraStep (msgs, cur) p).1 (paraStep (msgs, cur) p).2 hp.1 hp.2
    simpa using this

/-- The paragraph fold preserves the full paragraph text up to whitespace. -/
theorem paraFold_strip (paras : List (List Char)) :
    ∀ (acc : List (List Char) × List Char),
      stripWS ((paras.foldl paraStep acc).1.flatten ++
          (paras.foldl paraStep acc).2) =
        stripWS (acc.1.flatten ++ acc.2 ++ paras.flatten) := by
  induction paras with
  | nil => intro acc; simp [stripWS_append]
  | cons p t ih =>
    intro acc
    rw [List.foldl_cons, ih (paraStep acc p)]
    have hstep : stripWS ((paraStep acc p).1.flatten ++ (paraStep acc p).2) =
        stripWS (acc.1.flatten ++ acc.2 ++ p) := by
      simp only [paraStep]
      exact procParaF_strip (p.length + 1) acc.1 acc.2 p (by omega)
    rw [stripWS_append, hstep]
    simp [stripWS_append, List.append_assoc]

/-- The paragraph splitter drops only newline runs: flattening its output
preserves the text up to whitespace. -/
theorem splitAux_strip (l : List Char) :
    ∀ (mode : Bool) (cur : List Char),
      stripWS (splitAux mode cur l).flatten = stripWS (cur.reverse ++ l) := by
  induction l with
  | nil =>
    intro mode cur
    cases mode <;> simp [splitAux]
  | cons c rest ih =>
    intro mode cur
    cases mode
    · simp only [splitAux]
      split
      · rename_i h
        have hc : c = '\n' := h.1
        subst hc
        simp only [List.flatten_cons, stripWS_append, ih true []]
        simp [stripWS_append, stripWS, List.filter_cons, isWS_nl]
      · rw [ih false (c :: cur)]
        simp [List.append_assoc]
    · simp only [splitAux]
      split
      · rename_i h
        subst h
        rw [ih true cur]
        simp [stripWS_append, stripWS, List.filter_cons, isWS_nl]
      · rw [ih false (c :: cur)]
        simp [List.append_assoc]

/-- Filtering out whitespace-only paragraphs preserves the text up to
whitespace. -/
theorem flatten_filter_strip (paras : List (List Char)) :
    stripWS ((paras.filter (fun p => !(trim p).isEmpty)).flatten) =
      stripWS paras.flatten := by
  induction paras with
  | nil => rfl
  | cons p t ih =>
    by_cases h : (trim p).isEmpty
    · have hp : stripWS p = [] :=
        stripWS_nil_of_trim_nil p (List.isEmpty_iff.mp h)

      simp [List.filter_cons, h, stripWS_append, hp, ih]
    · simp [List.filter_cons, h, stripWS_append, ih]

/-- Closing the running message keeps every message within bounds. -/
theorem closeCur_ok (mc : List (List Char) × List Char)
    (hm : ChunksOK mc.1) (hc : mc.2.length ≤ 3900) :
    ChunksOK (closeCur mc) := by
  unfold closeCur
  split
  · exact hm
  · rename_i h
    intro m hmem
    rcases List.mem_append.mp hmem with h1 | h1
    · exact hm m h1
    · simp only [List.mem_singleton] at h1
      subst h1
      exact ⟨hc, fun hnil => h (by simp [hnil])⟩

/-- Closing the running message preserves the text. -/
theorem closeCur_strip (mc : List (List Char) × List Char) :
    stripWS (closeCur mc).flatten = stripWS (mc.1.flatten ++ mc.2) := by
  unfold closeCur
  split
  · rename_i h
    simp [List.isEmpty_iff.mp h, stripWS_append]
  · simp [List.flatten_append, stripWS_append]

/-- Appending the link keeps every message within bounds, given a non-empty
link of at most 3900 characters. -/
theorem appendLink_ok (link : List Char) (hl1 : link ≠ [])
    (hl2 : link.length ≤ 3900) :
    ∀ (msgs : List (List Char)), ChunksOK msgs →
      ChunksOK (appendLink link msgs) := by
  intro msgs
  induction msgs with
  | nil =>
    intro _ m hmem
    simp only [appendLink, List.mem_singleton] at hmem
    subst hmem
    exact ⟨hl2, hl1⟩
  | cons m1 rest ih =>
    intro hm
    cases rest with
    | nil =>
      intro m hmem
      have h1 := hm m1 (by simp)
      simp only [appendLink] at hmem
      split at hmem
      · rename_i hfits
        simp only [List.mem_singleton] at hmem
        subst hmem
        constructor
        · simp only [List.length_append, nl2, List.length_cons,
            List.length_nil] at *
          omega
        · simp [nl2]
      · rcases List.mem_cons.mp hmem with h2 | h2
        · subst h2; exact h1
        · simp only [List.mem_singleton] at h2
          subst h2
          exact ⟨hl2, hl1⟩
    | cons m2 rest2 =>
      intro m hmem
      simp only [appendLink] at hmem
      rcases List.mem_cons.mp hmem with h2 | h2
      · subst h2
        exact hm m (by simp)
      · have hsub : ChunksOK (m2 :: rest2) := by
          intro x hx
          exact hm x (List.mem_cons_of_mem m1 hx)
        exact ih hsub m h2

/-- Appending the link preserves the text: the link's characters follow all
body chunks. -/
theorem appendLink_strip (link : List Char) :
    ∀ (msgs : List (List Char)),
      stripWS (appendLink link msgs).flatten =
        stripWS msgs.flatten ++ stripWS link := by
  intro msgs
  induction msgs with
  | nil => simp [appendLink, stripWS_append, stripWS]
  | cons m1 rest ih =>
    cases rest with
    | nil =>
      simp only [appendLink]
      split
      · simp [stripWS_append, stripWS_nl2]
      · simp [stripWS_append]
    | cons m2 rest2 =>
      simp only [appendLink, List.flatten_cons, stripWS_append, ih]
      simp [stripWS_append, List.append_assoc]

/-- Appending the link never yields an empty chunk list. -/
theorem appendLink_ne_nil (link : List Char) :
    ∀ (msgs : List (List Char)), appendLink link msgs ≠ [] := by
  intro msgs
  induction msgs with
  | nil => simp [appendLink]
  | cons m1 rest ih =>
    cases rest with
    | nil =>
      simp only [appendLink]
      split <;> simp
    | cons m2 rest2 => simp [appendLink]

/-- Every chunk returned by `formatCommentForSlack` is within 3900
characters and non-empty, given a non-empty link of at most 3900
characters. -/
theorem formatOK (body link : List Char) (hl1 : link ≠ [])
    (hl2 : link.length ≤ 3900) :
    ChunksOK (formatCommentForSlack body link) := by
  unfold formatCommentForSlack
  split
  · rename_i h
    intro m hmem
    simp only [List.mem_singleton] at hmem
    subst hmem
    constructor
    · simp only [List.length_append, nl2, List.length_cons, List.length_nil]
      omega
    · simp [nl2]
  · have h0 := paraFold_ok
      ((splitParas body).filter (fun p => !(trim p).isEmpty)) [] []
      (by intro m hm; simp at hm) (by simp)
    exact appendLink_ok link hl1 hl2 _ (closeCur_ok _ h0.1 h0.2)

/-- `formatCommentForSlack` preserves the comment text up to whitespace:
stripping whitespace, the concatenation of all chunks is exactly the body
followed by the link. -/
theorem formatStrip (body link : List Char) :
    stripWS (formatCommentForSlack body link).flatten =
      stripWS body ++ stripWS link := by
  unfold formatCommentForSlack
  split
  · simp [stripWS_append, stripWS_nl2]
  · rw [appendLink_strip, closeCur_strip, paraFold_strip]
    have hsplit : stripWS (splitParas body).flatten = stripWS body := by
      simpa [splitParas] using splitAux_strip body false []
    simp only [List.flatten_nil, List.nil_append]
    rw [flatten_filter_strip, hsplit]

/-- `formatCommentForSlack` always returns at least one chunk. -/
theorem format_ne_nil (body link : List Char) :
    formatCommentForSlack body link ≠ [] := by
  unfold formatCommentForSlack
  split
  · simp
  · exact appendLink_ne_nil link _

/-- C4: for every body text (and a non-empty reference link within the
transport limit), every chunk the segmenter returns has length at most the
3900-character transport limit, no chunk is empty, and the chunks appear in
original document order — stripping whitespace, their concatenation is
exactly the body followed by the link. -/
theorem c4_segmenter_chunks (body link : List Char) (hl1 : link ≠ [])
    (hl2 : link.length ≤ 3900) :
    (∀ m ∈ formatCommentForSlack body link, m.length ≤ 3900 ∧ m ≠ []) ∧
    stripWS (formatCommentForSlack body link).flatten =
      stripWS body ++ stripWS link :=
  ⟨formatOK body link hl1 hl2, formatStrip body link⟩

/-- C4 witness: the segmenter guarantee applied at a concrete two-paragraph
body and link. -/
theorem c4_segmenter_chunks_witness :
    (∀ m ∈ formatCommentForSlack "Working on it.\n\nDone soon.".toList
        (mkLink "https://github.com/acme/acme/issues/1#issuecomment-2".toList),
      m.length ≤ 3900 ∧ m ≠ []) ∧
    stripWS (formatCommentForSlack "Working on it.\n\nDone soon.".toList
        (mkLink "https://github.com/acme/acme/issues/1#issuecomment-2".toList)).flatten =
      stripWS "Working on it.\n\nDone soon.".toList ++
        stripWS (mkLink "https://github.com/acme/acme/issues/1#issuecomment-2".toList) :=
  c4_segmenter_chunks _ _ (by decide) (by decide)

/-- C7: the 10,000-character single-paragraph body (10,000 letters `a`, so
no paragraph break, sentence period, newline or space exists) segmented
against the fixed 3900 limit yields more than one chunk, every chunk within
3900 characters, and — ignoring the appended reference link, which is
exactly the trailing `stripWS c7link` part — the concatenation of the
chunks reconstructs the original text up to whitespace at the boundaries. -/
theorem c7_segmenter_scenario :
    c7body.length = 10000 ∧
    1 < (formatCommentForSlack c7body c7link).length ∧
    (∀ m ∈ formatCommentForSlack c7body c7link, m.length ≤ 3900 ∧ m ≠ []) ∧
    stripWS (formatCommentForSlack c7body c7link).flatten =
      stripWS c7body ++ stripWS c7link := by
  have hlink1 : c7link ≠ [] := by decide
  have hlink2 : c7link.length ≤ 3900 := by decide
  have hok := formatOK c7body c7link hlink1 hlink2
  have hstr := formatStrip c7body c7link
  have hbody : stripWS c7body = c7body := by
    show stripWS (List.replicate 10000 'a') = List.replicate 10000 'a'
    unfold stripWS
    rw [List.filter_replicate]
    have ha : (!isWS 'a') = true := by decide
    rw [ha]
    rfl
  have hlen : c7body.length = 10000 := by
    show (List.replicate 10000 'a').length = 10000
    exact List.length_replicate _ _
  refine ⟨hlen, ?_, hok, hstr⟩
  by_contra hcon
  push_neg at hcon
  rcases hfmt : formatCommentForSlack c7body c7link with _ | ⟨m, rest⟩
  · exact format_ne_nil c7body c7link hfmt
  · have hrest : rest = [] := by
      rw [hfmt] at hcon
      simpa using hcon
    subst hrest
    have hm := hok m (by rw [hfmt]; simp)
    have : stripWS (formatCommentForSlack c7body c7link).flatten = stripWS m := by
      rw [hfmt]
      simp
    rw [hstr, hbody] at this
    have h1 : (stripWS m).length ≤ m.length := stripWS_length_le m
    have h2 : (c7body ++ stripWS c7link).length = 10000 + (stripWS c7link).length := by
      simp [hlen]
    rw [this] at h2
    omega

/-- The reference link is never empty. -/
theorem mkLink_ne_nil (url : List Char) : mkLink url ≠ [] := by
  simp [mkLink]

/-- Posting chunks as new messages yields no edit effect. -/
theorem postEffs_noEdit (c t : String) (msgs : List (List Char)) :
    ∀ e ∈ msgs.map (fun m => postEff c t m none), e.isEdit = false := by
  intro e he
  rcases List.mem_map.mp he with ⟨m, _, hme⟩
  subst hme
  rfl

/-- Clearing the in-progress indicator yields no edit effect. -/
theorem clearEffs_noEdit (req : ProgressCheckRequest) :
    ∀ e ∈ clearEffs req, e.isEdit = false := by
  intro e he
  unfold clearEffs at he
  rcases hots : req.originalMessageTs with _ | ots <;> rw [hots] at he
  · simp at he
  · simp only [List.mem_singleton] at he
    subst he
    rfl

/-- Characterization of a cycle that reaches the emission branch: the
deadline has not passed, the fetch succeeded, and the latest comment is
classified new or edited-in-place. -/
theorem checkProgress_emit (now : Nat) (req : ProgressCheckRequest)
    (comments : List Comment) (latest : Comment) (sinkResp : Nat → Option String)
    (hto : timedOut now req = false)
    (hlast : comments.getLast? = some latest)
    (hcl : (isNewC req.lastCommentId latest.id ||
            hasUpd req.lastCommentId latest) = true) :
    checkProgress now req (Except.ok comments) sinkResp =
      (if isTaskFinished latest.body then
        (Effect.fetchComments req.issueNumber ::
           (emitComment req
             (formatCommentForSlack (mdToSlack latest.body) (mkLink latest.html_url))
             (hasUpd req.lastCommentId latest) sinkResp).1 ++ clearEffs req,
         some { req with
                  attemptCount := req.attemptCount + 1
                  lastCommentId := some latest.id
                  slackMessageTs :=
                    (emitComment req
                      (formatCommentForSlack (mdToSlack latest.body)
                        (mkLink latest.html_url))
                      (hasUpd req.lastCommentId latest) sinkResp).2
                  isFinalCheck := true })
      else if req.isFinalCheck then
        (Effect.fetchComments req.issueNumber ::
           (emitComment req
             (formatCommentForSlack (mdToSlack latest.body) (mkLink latest.html_url))
             (hasUpd req.lastCommentId latest) sinkResp).1,
         none)
      else
        (Effect.fetchComments req.issueNumber ::
           (emitComment req
             (formatCommentForSlack (mdToSlack latest.body) (mkLink latest.html_url))
             (hasUpd req.lastCommentId latest) sinkResp).1,
         some { req with
                  attemptCount := req.attemptCount + 1
                  lastCommentId := some latest.id
                  slackMessageTs :=
                    (emitComment req
                      (formatCommentForSlack (mdToSlack latest.body)
                        (mkLink latest.html_url))
                      (hasUpd req.lastCommentId latest) sinkResp).2 })) := by
  simp only [checkProgress, hto, Bool.false_eq_true, if_false, getAllComments,
    hlast, hcl, if_true]

/-- C3: for a new latest comment (with the sink answering the first post),
every effect of the cycle is a fresh post — never an edit — and any
continued state stores the sink's reference for the first emitted chunk in
`lastMessageRef` and the latest id in `lastSeenCommentId`; for an
edited-in-place latest comment with a stored `lastMessageRef`, the first
emission is an edit targeting exactly that stored reference carrying the
first chunk, and any continued state keeps that same reference and updates
`lastSeenCommentId` — the 3900-character fallback in the update path is
unreachable because every chunk is within 3900 characters. -/
theorem c3_emission_refs (now : Nat) (req : ProgressCheckRequest)
    (comments : List Comment) (latest : Comment) (sinkResp : Nat → Option String)
    (hto : timedOut now req = false)
    (hlast : comments.getLast? = some latest)
    (hlink : (mkLink latest.html_url).length ≤ 3900) :
    (isNewC req.lastCommentId latest.id = true →
     hasUpd req.lastCommentId latest = false →
       (∀ e ∈ (checkProgress now req (Except.ok comments) sinkResp).1,
          e.isEdit = false) ∧
       (∀ t, sinkResp 0 = some t →
        ∀ next, (checkProgress now req (Except.ok comments) sinkResp).2 = some next →
          next.slackMessageTs = some t ∧ next.lastCommentId = some latest.id)) ∧
    (hasUpd req.lastCommentId latest = true →
     ∀ ts, req.slackMessageTs = some ts →
       (checkProgress now req (Except.ok comments) sinkResp).1.take 2 =
         [Effect.fetchComments req.issueNumber,
          Effect.editMsg req.channel ts
            ((formatCommentForSlack (mdToSlack latest.body)
               (mkLink latest.html_url)).headI)] ∧
       (∀ next, (checkProgress now req (Except.ok comments) sinkResp).2 = some next →
          next.slackMessageTs = some ts ∧ next.lastCommentId = some latest.id)) := by
  have hne := format_ne_nil (mdToSlack latest.body) (mkLink latest.html_url)
  constructor
  · intro hnew hupd
    have hcl : (isNewC req.lastCommentId latest.id ||
        hasUpd req.lastCommentId latest) = true := by simp [hnew]
    rw [checkProgress_emit now req comments latest sinkResp hto hlast hcl]
    have hemit : emitComment req
        (formatCommentForSlack (mdToSlack latest.body) (mkLink latest.html_url))
        (hasUpd req.lastCommentId latest) sinkResp =
        ((formatCommentForSlack (mdToSlack latest.body) (mkLink latest.html_url)).map
           (fun m => postEff req.channel req.threadId m none),
         match sinkResp 0 with
         | some t => some t
         | none => req.slackMessageTs) := by
      rw [hupd]
      simp [emitComment, List.isEmpty_iff, hne]
    rw [hemit]
    constructor
    · intro e he
      split at he
      · rcases List.mem_cons.mp he with he | he
        · subst he; rfl
        · rcases List.mem_append.mp he with he | he
          · exact postEffs_noEdit _ _ _ e he
          · exact clearEffs_noEdit req e he
      · split at he <;>
        · rcases List.mem_cons.mp he with he | he
          · subst he; rfl
          · exact postEffs_noEdit _ _ _ e he
    · intro t ht next hnext
      split at hnext
      · injection hnext with h
        subst h
        simp [ht]
      · split at hnext
        · exact absurd hnext (by simp)
        · injection hnext with h
          subst h
          simp [ht]
  · intro hupd ts hts
    have hcl : (isNewC req.lastCommentId latest.id ||
        hasUpd req.lastCommentId latest) = true := by simp [hupd]
    rw [checkProgress_emit now req comments latest sinkResp hto hlast hcl]
    rcases hmsgs : formatCommentForSlack (mdToSlack latest.body)
        (mkLink latest.html_url) with _ | ⟨m0, rest⟩
    · exact absurd hmsgs hne
    · have hm0 : m0.length ≤ 3900 := by
        have := formatOK (mdToSlack latest.body) (mkLink latest.html_url)
          (mkLink_ne_nil _) hlink m0 (by rw [hmsgs]; simp)
        exact this.1
      have hemit : emitComment req (m0 :: rest) true sinkResp =
          (Effect.editMsg req.channel ts m0 ::
             rest.map (fun m => postEff req.channel req.threadId m none),
           some ts) := by
        have hnlt : ¬ 3900 < m0.length := by omega
        simp [emitComment, hnlt, hts, postEff]
      rw [hupd, hemit]
      constructor
      · split_ifs <;> simp
      · intro next hnext
        split at hnext
        · injection hnext with h
          subst h
          simp
        · split at hnext
          · exact absurd hnext (by simp)
          · injection hnext with h
            subst h
            simp

/-- C3 witness: the emission theorem applied at a concrete cycle whose
latest comment is new. -/
theorem c3_emission_refs_witness :
    (isNewC c3req.lastCommentId c3cm.id = true →
     hasUpd c3req.lastCommentId c3cm = false →
       (∀ e ∈ (checkProgress 11 c3req (Except.ok [c3cm]) (fun _ => some "88.8")).1,
          e.isEdit = false) ∧
       (∀ t, (some "88.8" : Option String) = some t →
        ∀ next, (checkProgress 11 c3req (Except.ok [c3cm]) (fun _ => some "88.8")).2 =
            some next →
          next.slackMessageTs = some t ∧ next.lastCommentId = some c3cm.id)) ∧
    (hasUpd c3req.lastCommentId c3cm = true →
     ∀ ts, c3req.slackMessageTs = some ts →
       (checkProgress 11 c3req (Except.ok [c3cm]) (fun _ => some "88.8")).1.take 2 =
         [Effect.fetchComments c3req.issueNumber,
          Effect.editMsg c3req.channel ts
            ((formatCommentForSlack (mdToSlack c3cm.body)
               (mkLink c3cm.html_url)).headI)] ∧
       (∀ next, (checkProgress 11 c3req (Except.ok [c3cm]) (fun _ => some "88.8")).2 =
            some next →
          next.slackMessageTs = some ts ∧ next.lastCommentId = some c3cm.id)) :=
  c3_emission_refs 11 c3req [c3cm] c3cm (fun _ => some "88.8")
    (by decide) rfl (by decide)

end SlackBot
